import Mathlib

/-!
Shallow embedding of the grp-demo in-memory gRPC user service.

The Go sources embedded here:
  internal/models/user.go          — `User`, `FromCreateRequest`, `User.Update`
  internal/repository/user_repository.go
                                   — `InMemoryUserRepository` and its methods
                                     (`GetByID`, `Create`, `Update`, `Delete`,
                                     `List`, `EmailExists`), helper `contains`
                                     and `findSubstring`, seeded constructor
  internal/service/user_service.go — the service handlers (`CreateUser`,
                                     `UpdateUser`, `DeleteUser`, `CreateUsers`,
                                     the echo reply built inside `Chat`)

Modelling conventions: Go strings are `List Char`; timestamps are abstract
`Nat` ticks supplied by the caller (the code reads `time.Now()`); the Go map
`map[int32]*User` is modelled as the list of live users in iteration order
(iteration order of a Go map is unspecified, so every statement below is
relative to that order); `int32` identifiers are modelled as `Int`; mutation
is explicit state passing, so each store operation returns the new store next
to its `Except` result.
-/

namespace GrpDemo

/-- Internal user model (models/user.go `User`). -/
structure User where
  id : Int
  name : List Char
  email : List Char
  role : List Char
  createdAt : Nat
  updatedAt : Nat
deriving DecidableEq

/-- The repository's error values (`ErrUserNotFound`, `ErrEmailExists`,
`ErrInvalidInput`). -/
inductive RepoError where
  | userNotFound
  | emailExists
  | invalidInput
deriving DecidableEq

/-- `InMemoryUserRepository`: the live users (in map-iteration order) and the
`nextID` counter. -/
structure Repo where
  users : List User
  nextID : Int
deriving DecidableEq

/-- The emails of the live users, in iteration order. -/
def Repo.emails (r : Repo) : List (List Char) :=
  r.users.map (fun u => u.email)

/-- `NewInMemoryUserRepository`: three seeded users, counter at 4. -/
def newInMemoryUserRepository (now : Nat) : Repo :=
  { users :=
      [ { id := 1, name := "John Doe".data, email := "john@example.com".data,
          role := "admin".data, createdAt := now, updatedAt := now },
        { id := 2, name := "Jane Smith".data, email := "jane@example.com".data,
          role := "user".data, createdAt := now, updatedAt := now },
        { id := 3, name := "Bob Johnson".data, email := "bob@example.com".data,
          role := "user".data, createdAt := now, updatedAt := now } ],
    nextID := 4 }

/-- `InMemoryUserRepository.GetByID`: look the id up, return a copy. -/
def Repo.getByID (r : Repo) (id : Int) : Except RepoError User :=
  match r.users.find? (fun u => decide (u.id = id)) with
  | some u => Except.ok u
  | none => Except.error RepoError.userNotFound

/-- Two's-complement wrap-around of Go's `int32` arithmetic: the result of
storing an integer into an `int32` field. -/
def wrap32 (x : Int) : Int :=
  (x + 2147483648) % 4294967296 - 2147483648

/-- `InMemoryUserRepository.Create`: reject empty name/email, then scan the
live users for the email, otherwise assign `nextID`, bump the counter (an
`int32`, so the increment wraps) and store the record.  Returns the new
store and the assigned id. -/
def Repo.create (r : Repo) (u : User) : Repo × Except RepoError Int :=
  if u.name = [] ∨ u.email = [] then
    (r, Except.error RepoError.invalidInput)
  else if ∃ eu ∈ r.users, eu.email = u.email then
    (r, Except.error RepoError.emailExists)
  else
    ({ users := r.users ++ [{ u with id := r.nextID }],
        nextID := wrap32 (r.nextID + 1) },
      Except.ok r.nextID)

/-- `InMemoryUserRepository.Update`: replace the record at `u.id` if it is
live, else `ErrUserNotFound`. -/
def Repo.update (r : Repo) (u : User) : Repo × Except RepoError Unit :=
  if ∃ eu ∈ r.users, eu.id = u.id then
    ({ r with users := r.users.map (fun eu => if eu.id = u.id then u else eu) },
      Except.ok ())
  else
    (r, Except.error RepoError.userNotFound)

/-- `InMemoryUserRepository.Delete`: hard-remove the record if it is live,
else `ErrUserNotFound`. -/
def Repo.delete (r : Repo) (id : Int) : Repo × Except RepoError Unit :=
  if ∃ eu ∈ r.users, eu.id = id then
    ({ r with users := r.users.filter (fun u => decide (u.id ≠ id)) },
      Except.ok ())
  else
    (r, Except.error RepoError.userNotFound)

/-- `InMemoryUserRepository.EmailExists`. -/
def Repo.emailExists (r : Repo) (email : List Char) : Bool :=
  r.users.any (fun u => decide (u.email = email))

/-- `findSubstring s substr`: the scan `for i := 0; i <= len(s)-len(substr)`
checking `s[i:i+len(substr)] == substr`. -/
def findSubstring (s substr : List Char) : Bool :=
  (List.range (s.length + 1 - substr.length)).any
    (fun i => decide ((s.drop i).take substr.length = substr))

/-- The hand-rolled `contains` helper: length guard, equality, explicit head
and tail slice checks, then `findSubstring`. -/
def contains (s substr : List Char) : Bool :=
  decide (substr.length ≤ s.length) &&
    (decide (s = substr) ||
      (decide (substr.length < s.length) &&
        (decide (s.take substr.length = substr) ||
          decide (s.drop (s.length - substr.length) = substr) ||
          findSubstring s substr)))

/-- `pb.UserFilter`: keyword, acceptable roles, limit (`int32`). -/
structure UserFilter where
  keyword : List Char
  roles : List (List Char)
  limit : Int
deriving DecidableEq

/-- The loop body of `InMemoryUserRepository.List`: skip a user failing the
keyword check, skip a user failing the role check, break once `count` has
reached a positive limit, otherwise keep a copy and count it. -/
def Repo.listLoop (f : UserFilter) : List User → Nat → List User
  | [], _ => []
  | user :: rest, count =>
    if f.keyword ≠ [] ∧ contains user.name f.keyword = false then
      Repo.listLoop f rest count
    else if f.roles ≠ [] ∧ f.roles.any (fun role => decide (user.role = role)) = false then
      Repo.listLoop f rest count
    else if 0 < f.limit ∧ f.limit ≤ (count : Int) then
      []
    else
      user :: Repo.listLoop f rest (count + 1)

/-- `InMemoryUserRepository.List`: run the filter loop over the live users
starting with `count = 0`.  The Go version also returns an error value that
is always `nil`. -/
def Repo.list (r : Repo) (f : UserFilter) : List User :=
  Repo.listLoop f r.users 0

/-- Modelled from the spec (§4.2) for comparison with `Repo.list`: keep
exactly the users whose name has the keyword as a (reference) substring and
whose role belongs to the role set, then truncate to `limit` when positive. -/
def specList (users : List User) (f : UserFilter) : List User :=
  let matched := users.filter (fun u =>
    (decide (f.keyword = []) || decide (f.keyword <:+: u.name)) &&
    (decide (f.roles = []) || decide (u.role ∈ f.roles)))
  if 0 < f.limit then matched.take f.limit.toNat else matched

/-- `pb.CreateUserRequest` (name, email, role). -/
structure CreateUserRequest where
  name : List Char
  email : List Char
  role : List Char
deriving DecidableEq

/-- `pb.UpdateUserRequest` (id plus optional name/email/role). -/
structure UpdateUserRequest where
  id : Int
  name : List Char
  email : List Char
  role : List Char
deriving DecidableEq

/-- `models.FromCreateRequest`: build a user from a create request, the role
defaulting to `"user"` when empty, both timestamps set to `now`. -/
def fromCreateRequest (req : CreateUserRequest) (id : Int) (now : Nat) : User :=
  { id := id, name := req.name, email := req.email,
    role := if req.role = [] then "user".data else req.role,
    createdAt := now, updatedAt := now }

/-- `models.User.Update`: overwrite only the non-empty request fields and
refresh the update timestamp. -/
def User.update (u : User) (req : UpdateUserRequest) (now : Nat) : User :=
  let u1 := if req.name ≠ [] then { u with name := req.name } else u
  let u2 := if req.email ≠ [] then { u1 with email := req.email } else u1
  let u3 := if req.role ≠ [] then { u2 with role := req.role } else u2
  { u3 with updatedAt := now }

/-- The canonical gRPC status codes the handlers emit. -/
inductive GrpcCode where
  | notFound
  | alreadyExists
  | invalidArgument
  | deadlineExceeded
  | canceled
  | internal
deriving DecidableEq

/-- The state of `ctx.Err()` observed by a handler at entry. -/
inductive CtxErr where
  | ok
  | deadlineExceeded
  | canceled
deriving DecidableEq

/-- `UserService.checkContext`: map an already-expired or canceled context to
its status code. -/
def checkContext : CtxErr → Option GrpcCode
  | CtxErr.deadlineExceeded => some GrpcCode.deadlineExceeded
  | CtxErr.canceled => some GrpcCode.canceled
  | CtxErr.ok => none

/-- `UserService.CreateUser`: context check, build the user from the request,
delegate to the store, map `ErrInvalidInput` to `InvalidArgument` and
`ErrEmailExists` to `AlreadyExists`, otherwise return the stored record. -/
def CreateUser (r : Repo) (ctx : CtxErr) (req : CreateUserRequest) (now : Nat) :
    Repo × Except GrpcCode User :=
  match checkContext ctx with
  | some c => (r, Except.error c)
  | none =>
    let user := fromCreateRequest req 0 now
    match Repo.create r user with
    | (r2, Except.ok id) => (r2, Except.ok { user with id := id })
    | (r2, Except.error e) =>
      (r2, Except.error (match e with
        | RepoError.invalidInput => GrpcCode.invalidArgument
        | RepoError.emailExists => GrpcCode.alreadyExists
        | RepoError.userNotFound => GrpcCode.internal))

/-- `UserService.UpdateUser`: context check, fetch the record (`NotFound` when
absent), apply the partial update, persist it. -/
def UpdateUser (r : Repo) (ctx : CtxErr) (req : UpdateUserRequest) (now : Nat) :
    Repo × Except GrpcCode User :=
  match checkContext ctx with
  | some c => (r, Except.error c)
  | none =>
    match Repo.getByID r req.id with
    | Except.error e =>
      (r, Except.error
        (if e = RepoError.userNotFound then GrpcCode.notFound else GrpcCode.internal))
    | Except.ok user =>
      let user2 := User.update user req now
      match Repo.update r user2 with
      | (r2, Except.ok _) => (r2, Except.ok user2)
      | (r2, Except.error _) => (r2, Except.error GrpcCode.internal)

/-- `UserService.DeleteUser`: context check, delegate to the store, mapping
`ErrUserNotFound` to `NotFound`. -/
def DeleteUser (r : Repo) (ctx : CtxErr) (id : Int) : Repo × Except GrpcCode Unit :=
  match checkContext ctx with
  | some c => (r, Except.error c)
  | none =>
    match Repo.delete r id with
    | (r2, Except.ok _) => (r2, Except.ok ())
    | (r2, Except.error e) =>
      (r2, Except.error
        (if e = RepoError.userNotFound then GrpcCode.notFound else GrpcCode.internal))

/-- `pb.BulkCreateResponse`. -/
structure BulkCreateResponse where
  CreatedCount : Int
  UserIds : List Int
  Errors : List (List Char)
deriving DecidableEq

/-- The text of a repository error value, as Go formats it with `%v`. -/
def errText : RepoError → List Char
  | RepoError.userNotFound => "user not found".data
  | RepoError.emailExists => "email already exists".data
  | RepoError.invalidInput => "invalid input".data

/-- The per-item failure message `fmt.Sprintf("Email %s: %v", email, err)`
recorded by `UserService.CreateUsers`. -/
def fmtCreateError (email : List Char) (e : RepoError) : List Char :=
  "Email ".data ++ email ++ ": ".data ++ errText e

/-- `UserService.CreateUsers` over a finite inbound batch ending in graceful
end-of-input: each item goes through `FromCreateRequest` and `Create`; a
failure appends a message and processing continues; a success appends the
assigned id and counts it. -/
def CreateUsers (now : Nat) (r : Repo) : List CreateUserRequest → Repo × BulkCreateResponse
  | [] => (r, { CreatedCount := 0, UserIds := [], Errors := [] })
  | req :: rest =>
    match Repo.create r (fromCreateRequest req 0 now) with
    | (r1, Except.error e) =>
      match CreateUsers now r1 rest with
      | (r2, resp) =>
        (r2, { CreatedCount := resp.CreatedCount,
               UserIds := resp.UserIds,
               Errors := fmtCreateError req.email e :: resp.Errors })
    | (r1, Except.ok id) =>
      match CreateUsers now r1 rest with
      | (r2, resp) =>
        (r2, { CreatedCount := resp.CreatedCount + 1,
               UserIds := id :: resp.UserIds,
               Errors := resp.Errors })

/-- `pb.MessageType` as used by the chat handler. -/
inductive MessageType where
  | text
deriving DecidableEq

/-- `pb.ChatMessage`: sender label, recipient label, body, timestamp, kind
tag (the proto field `Type`). -/
structure ChatMessage where
  From : List Char
  To : List Char
  Message : List Char
  Timestamp : Nat
  Kind : MessageType
deriving DecidableEq

/-- The echo reply synthesized by `UserService.Chat`'s receive loop for an
inbound message: sender label `"Server"`, recipient the inbound sender, body
`"Echo: "` prefixed to the inbound body, fresh timestamp. -/
def chatEcho (msg : ChatMessage) (now : Nat) : ChatMessage :=
  { From := "Server".data, To := msg.From,
    Message := "Echo: ".data ++ msg.Message,
    Timestamp := now, Kind := MessageType.text }

/-- One store-mutating operation of a client-visible history: a unary create,
a unary update, a unary delete, or a whole bulk-ingest batch, each with the
clock value it observes. -/
inductive Op where
  | createOp (req : CreateUserRequest) (now : Nat)
  | updateOp (req : UpdateUserRequest) (now : Nat)
  | deleteOp (id : Int)
  | bulkOp (reqs : List CreateUserRequest) (now : Nat)

/-- Whether the operation is a unary update. -/
def Op.isUpdate : Op → Bool
  | Op.updateOp _ _ => true
  | _ => false

/-- Apply one operation through the service layer (context healthy), returning
the new store and the ids it assigned, in assignment order. -/
def applyOp (r : Repo) : Op → Repo × List Int
  | Op.createOp req now =>
    match CreateUser r CtxErr.ok req now with
    | (r2, Except.ok u) => (r2, [u.id])
    | (r2, Except.error _) => (r2, [])
  | Op.updateOp req now => ((UpdateUser r CtxErr.ok req now).1, [])
  | Op.deleteOp id => ((DeleteUser r CtxErr.ok id).1, [])
  | Op.bulkOp reqs now =>
    match CreateUsers now r reqs with
    | (r2, resp) => (r2, resp.UserIds)

/-- Run a history of operations, concatenating the assigned ids in order. -/
def runTrace (r : Repo) : List Op → Repo × List Int
  | [] => (r, [])
  | op :: ops =>
    match applyOp r op with
    | (r1, ids1) =>
      match runTrace r1 ops with
      | (r2, ids2) => (r2, ids1 ++ ids2)

/-- `intRange s n`: the `n` consecutive integers starting at `s`. -/
def intRange (s : Int) : Nat → List Int
  | 0 => []
  | n + 1 => s :: intRange (s + 1) n

/-- `wrapRange s n`: the `n` successive values of the wrapping `int32`
counter starting at `s`. -/
def wrapRange (s : Int) : Nat → List Int
  | 0 => []
  | n + 1 => s :: wrapRange (wrap32 (s + 1)) n

/-- `bumpN s n`: the wrapping `int32` counter after `n` increments from `s`. -/
def bumpN (s : Int) : Nat → Int
  | 0 => s
  | n + 1 => bumpN (wrap32 (s + 1)) n

/-- A family of pairwise-distinct emails, disjoint from the seeded ones. -/
def mkEmail (i : Nat) : List Char :=
  List.replicate (i + 1) 'z'

/-- A valid creation request carrying the i-th fresh email. -/
def mkReq (i : Nat) : CreateUserRequest :=
  { name := "u".data, email := mkEmail i, role := [] }

/-- The i-th creation operation of the long history below. -/
def mkOp (i : Nat) : Op :=
  Op.createOp (mkReq i) 0

/-- One more creation than fits before the `int32` counter wraps when
starting from the seeded counter 4. -/
def bigN : Nat := 2147483645

/-- The indices of the long all-creation history. -/
def bigIdxs : List Nat := List.range bigN

/-- A history of `bigN` valid creations with pairwise-distinct fresh emails
starting from the seeded store: long enough to wrap the `int32` counter. -/
def bigOps : List Op := bigIdxs.map mkOp

/-! ### Helper lemmas: the hand-rolled substring search -/

theorem findSubstring_iff (s p : List Char) :
    findSubstring s p = true ↔
      ∃ i, i + p.length ≤ s.length ∧ (s.drop i).take p.length = p := by
  unfold findSubstring
  rw [List.any_eq_true]
  constructor
  · rintro ⟨i, hi, hp⟩
    rw [List.mem_range] at hi
    exact ⟨i, by omega, by simpa using hp⟩
  · rintro ⟨i, hi, hp⟩
    exact ⟨i, List.mem_range.mpr (by omega), by simpa using hp⟩

theorem substrAt_iff (s p : List Char) :
    p <:+: s ↔ ∃ i, i + p.length ≤ s.length ∧ (s.drop i).take p.length = p := by
  constructor
  · rintro ⟨u, v, rfl⟩
    refine ⟨u.length, ?_, ?_⟩
    · simp only [List.length_append]
      omega
    · rw [List.append_assoc, List.drop_left, List.take_left]
  · rintro ⟨i, hi, hp⟩
    refine ⟨s.take i, (s.drop i).drop p.length, ?_⟩
    conv_rhs => rw [← List.take_append_drop i s]
    rw [List.append_assoc]
    congr 1
    conv_rhs => rw [← List.take_append_drop p.length (s.drop i)]
    rw [hp]

theorem contains_iff (s p : List Char) : contains s p = true ↔ p <:+: s := by
  rw [substrAt_iff]
  unfold contains
  simp only [Bool.and_eq_true, Bool.or_eq_true, decide_eq_true_eq, findSubstring_iff]
  constructor
  · rintro ⟨hlen, hcase⟩
    rcases hcase with rfl | ⟨hlt, hcase⟩
    · exact ⟨0, by omega, by simp⟩
    · rcases hcase with (hpre | hsuf) | hfind
      · exact ⟨0, by omega, by simpa using hpre⟩
      · refine ⟨s.length - p.length, by omega, ?_⟩
        rw [hsuf]
        exact List.take_length p
      · exact hfind
  · rintro ⟨i, hi, hp⟩
    have hlen : p.length ≤ s.length := by omega
    refine ⟨hlen, ?_⟩
    by_cases heq : s = p
    · exact Or.inl heq
    · refine Or.inr ⟨?_, Or.inr ⟨i, hi, hp⟩⟩
      rcases lt_or_eq_of_le hlen with h | h
      · exact h
      · exfalso
        apply heq
        have hi0 : i = 0 := by omega
        subst hi0
        rw [List.drop_zero] at hp
        rw [← hp, h]
        exact (List.take_length s).symm

/-! ### Helper lemmas: the filter loop versus the spec-side filter -/

theorem listLoop_eq (f : UserFilter) :
    ∀ (us : List User) (count : Nat),
      Repo.listLoop f us count =
        (if 0 < f.limit then
          (us.filter (fun u =>
            (decide (f.keyword = []) || decide (f.keyword <:+: u.name)) &&
            (decide (f.roles = []) || decide (u.role ∈ f.roles)))).take (f.limit.toNat - count)
        else
          us.filter (fun u =>
            (decide (f.keyword = []) || decide (f.keyword <:+: u.name)) &&
            (decide (f.roles = []) || decide (u.role ∈ f.roles)))) := by
  intro us
  induction us with
  | nil =>
    intro count
    simp [Repo.listLoop]
  | cons u rest ih =>
    intro count
    by_cases hk : f.keyword ≠ [] ∧ contains u.name f.keyword = false
    · have h1 : ¬ f.keyword <:+: u.name := by
        rw [← contains_iff, hk.2]
        simp
      have hpred : ((decide (f.keyword = []) || decide (f.keyword <:+: u.name)) &&
          (decide (f.roles = []) || decide (u.role ∈ f.roles))) = false := by
        simp [hk.1, h1]
      rw [Repo.listLoop, if_pos hk, ih count]
      simp only [List.filter_cons, hpred]
      simp
    · by_cases hr : f.roles ≠ [] ∧ f.roles.any (fun role => decide (u.role = role)) = false
      · have h2 : u.role ∉ f.roles := by
          intro hmem
          have : f.roles.any (fun role => decide (u.role = role)) = true :=
            List.any_eq_true.mpr ⟨u.role, hmem, by simp⟩
          rw [hr.2] at this
          exact Bool.false_ne_true this
        have hpred : ((decide (f.keyword = []) || decide (f.keyword <:+: u.name)) &&
            (decide (f.roles = []) || decide (u.role ∈ f.roles))) = false := by
          simp [hr.1, h2]
        rw [Repo.listLoop, if_neg hk, if_pos hr, ih count]
        simp only [List.filter_cons, hpred]
        simp
      · have hpred : ((decide (f.keyword = []) || decide (f.keyword <:+: u.name)) &&
            (decide (f.roles = []) || decide (u.role ∈ f.roles))) = true := by
          push_neg at hk hr
          rw [Bool.and_eq_true]
          constructor
          · by_cases hkw : f.keyword = []
            · simp [hkw]
            · have := hk hkw
              have hcontains : contains u.name f.keyword = true := by
                cases hcase : contains u.name f.keyword
                · exact absurd hcase (hk hkw)
                · rfl
              rw [contains_iff] at hcontains
              simp [hcontains]
          · by_cases hrl : f.roles = []
            · simp [hrl]
            · have hany : f.roles.any (fun role => decide (u.role = role)) = true := by
                cases hcase : f.roles.any (fun role => decide (u.role = role))
                · exact absurd hcase (hr hrl)
                · rfl
              rcases List.any_eq_true.mp hany with ⟨role, hrole, hhit⟩
              have : u.role = role := of_decide_eq_true hhit
              subst this
              simp [hrole]
        rw [Repo.listLoop, if_neg hk, if_neg hr]
        by_cases hstop : 0 < f.limit ∧ f.limit ≤ (count : Int)
        · rw [if_pos hstop, if_pos hstop.1]
          have hzero : f.limit.toNat - count = 0 := by omega
          rw [hzero]
          simp
        · rw [if_neg hstop, ih (count + 1)]
          by_cases hlim : 0 < f.limit
          · have hlt : count < f.limit.toNat := by
              rcases not_and_or.mp hstop with h | h
              · exact absurd hlim h
              · omega
            have hsucc : f.limit.toNat - count = (f.limit.toNat - (count + 1)) + 1 := by
              omega
            rw [if_pos hlim, if_pos hlim]
            simp only [List.filter_cons, hpred, if_pos]
            rw [hsucc]
            simp [List.take_succ_cons]
          · rw [if_neg hlim, if_neg hlim]
            simp only [List.filter_cons, hpred]
            simp

/-! ### Helper lemmas: Create, GetByID, Update, Delete -/

theorem emails_mem (r : Repo) (x : List Char) :
    x ∈ r.emails ↔ ∃ eu ∈ r.users, eu.email = x := by
  simp [Repo.emails]

theorem create_invalid (r : Repo) (u : User) (h : u.name = [] ∨ u.email = []) :
    Repo.create r u = (r, Except.error RepoError.invalidInput) := by
  unfold Repo.create
  rw [if_pos h]

theorem create_dup (r : Repo) (u : User) (hn : u.name ≠ []) (he : u.email ≠ [])
    (hd : ∃ eu ∈ r.users, eu.email = u.email) :
    Repo.create r u = (r, Except.error RepoError.emailExists) := by
  unfold Repo.create
  rw [if_neg (by tauto), if_pos hd]

theorem create_ok (r : Repo) (u : User) (hn : u.name ≠ []) (he : u.email ≠ [])
    (hd : ∀ eu ∈ r.users, eu.email ≠ u.email) :
    Repo.create r u =
      ({ users := r.users ++ [{ u with id := r.nextID }],
          nextID := wrap32 (r.nextID + 1) },
        Except.ok r.nextID) := by
  unfold Repo.create
  rw [if_neg (by tauto), if_neg (by push_neg; exact hd)]

theorem create_shape (r : Repo) (u : User) :
    (Repo.create r u = (r, Except.error RepoError.invalidInput)) ∨
    ((∃ eu ∈ r.users, eu.email = u.email) ∧
      Repo.create r u = (r, Except.error RepoError.emailExists)) ∨
    ((∀ eu ∈ r.users, eu.email ≠ u.email) ∧
      Repo.create r u =
        ({ users := r.users ++ [{ u with id := r.nextID }],
            nextID := wrap32 (r.nextID + 1) },
          Except.ok r.nextID)) := by
  by_cases h1 : u.name = [] ∨ u.email = []
  · exact Or.inl (create_invalid r u h1)
  · push_neg at h1
    by_cases h2 : ∃ eu ∈ r.users, eu.email = u.email
    · exact Or.inr (Or.inl ⟨h2, create_dup r u h1.1 h1.2 h2⟩)
    · push_neg at h2
      exact Or.inr (Or.inr ⟨h2, create_ok r u h1.1 h1.2 h2⟩)

theorem create_error_frame (r : Repo) (u : User) (e : RepoError)
    (h : (Repo.create r u).2 = Except.error e) : (Repo.create r u).1 = r := by
  rcases create_shape r u with hc | ⟨_, hc⟩ | ⟨_, hc⟩ <;> rw [hc]
  rw [hc] at h
  simp at h

theorem getByID_none (r : Repo) (id : Int) (h : ∀ u ∈ r.users, u.id ≠ id) :
    Repo.getByID r id = Except.error RepoError.userNotFound := by
  unfold Repo.getByID
  have hf : r.users.find? (fun u => decide (u.id = id)) = none := by
    rw [List.find?_eq_none]
    intro x hx
    simp [h x hx]
  rw [hf]

theorem getByID_ok (r : Repo) (id : Int) (u : User)
    (h : Repo.getByID r id = Except.ok u) : u ∈ r.users ∧ u.id = id := by
  unfold Repo.getByID at h
  cases hf : r.users.find? (fun v => decide (v.id = id)) with
  | none => rw [hf] at h; exact absurd h (by simp)
  | some v =>
    rw [hf] at h
    have hv : v = u := by
      injection h
    subst hv
    have hp := List.find?_some hf
    simp only [decide_eq_true_eq] at hp
    exact ⟨List.mem_of_find?_eq_some hf, hp⟩

theorem Repo.update_nextID (r : Repo) (u : User) :
    (Repo.update r u).1.nextID = r.nextID := by
  unfold Repo.update
  split_ifs <;> rfl

theorem Repo.delete_nextID (r : Repo) (id : Int) :
    (Repo.delete r id).1.nextID = r.nextID := by
  unfold Repo.delete
  split_ifs <;> rfl

/-! ### Helper lemmas: consecutive integer ranges -/

theorem intRange_length (s : Int) : ∀ n : Nat, (intRange s n).length = n := by
  intro n
  induction n generalizing s with
  | zero => rfl
  | succ m ih => simp [intRange, ih]

theorem intRange_lb : ∀ (n : Nat) (s i : Int), i ∈ intRange s n → s ≤ i := by
  intro n
  induction n with
  | zero => intro s i hi; simp [intRange] at hi
  | succ m ih =>
    intro s i hi
    rcases List.mem_cons.mp hi with rfl | hi
    · exact le_refl i
    · have := ih (s + 1) i hi
      omega

theorem intRange_chain : ∀ (n : Nat) (s : Int), List.Chain' (· < ·) (intRange s n) := by
  intro n
  induction n with
  | zero => intro s; simp [intRange]
  | succ m ih =>
    intro s
    rw [intRange, List.chain'_cons']
    refine ⟨?_, ih (s + 1)⟩
    intro y hy
    cases m with
    | zero => simp [intRange] at hy
    | succ k =>
      simp [intRange] at hy
      omega

theorem intRange_append (b : Nat) : ∀ (a : Nat) (s : Int),
    intRange s (a + b) = intRange s a ++ intRange (s + (a : Int)) b := by
  intro a
  induction a with
  | zero =>
    intro s
    simp [intRange]
  | succ m ih =>
    intro s
    have hnat : m + 1 + b = (m + b) + 1 := by omega
    have hcast : s + 1 + (m : Int) = s + ((m + 1 : Nat) : Int) := by
      push_cast
      ring
    rw [hnat, intRange, ih (s + 1), hcast]
    simp [intRange]

theorem wrapRange_length (s : Int) : ∀ n : Nat, (wrapRange s n).length = n := by
  intro n
  induction n generalizing s with
  | zero => rfl
  | succ m ih => simp [wrapRange, ih]

theorem bumpN_add (b : Nat) : ∀ (a : Nat) (s : Int),
    bumpN s (a + b) = bumpN (bumpN s a) b := by
  intro a
  induction a with
  | zero => intro s; simp [bumpN]
  | succ m ih =>
    intro s
    have hnat : m + 1 + b = (m + b) + 1 := by omega
    rw [hnat, bumpN, bumpN]
    exact ih (wrap32 (s + 1))

theorem wrapRange_append (b : Nat) : ∀ (a : Nat) (s : Int),
    wrapRange s (a + b) = wrapRange s a ++ wrapRange (bumpN s a) b := by
  intro a
  induction a with
  | zero => intro s; simp [wrapRange, bumpN]
  | succ m ih =>
    intro s
    have hnat : m + 1 + b = (m + b) + 1 := by omega
    rw [hnat, wrapRange, ih (wrap32 (s + 1)), wrapRange, bumpN]
    simp [List.cons_append]

theorem wrap32_fix (x : Int) (hlo : -2147483648 ≤ x) (hhi : x ≤ 2147483647) :
    wrap32 x = x := by
  unfold wrap32
  omega

theorem bumpN_no_wrap :
    ∀ (n : Nat) (s : Int), -2147483648 ≤ s → s + (n : Int) ≤ 2147483647 →
      bumpN s n = s + n := by
  intro n
  induction n with
  | zero =>
    intro s _ _
    simp [bumpN]
  | succ m ih =>
    intro s hlo hhi
    rw [bumpN, wrap32_fix (s + 1) (by omega) (by omega),
      ih (s + 1) (by omega) (by omega)]
    push_cast
    ring

theorem wrapRange_eq_intRange :
    ∀ (n : Nat) (s : Int), -2147483648 ≤ s → s + (n : Int) ≤ 2147483648 →
      wrapRange s n = intRange s n := by
  intro n
  induction n with
  | zero =>
    intro s _ _
    rfl
  | succ m ih =>
    intro s hlo hhi
    cases m with
    | zero => rfl
    | succ k =>
      rw [wrapRange, intRange, wrap32_fix (s + 1) (by omega) (by omega),
        ih (s + 1) (by omega) (by omega)]

/-! ### Helper lemmas: the service layer -/

theorem fromCreateRequest_id (req : CreateUserRequest) (i j : Int) (now : Nat) :
    { fromCreateRequest req i now with id := j } = fromCreateRequest req j now := rfl

theorem CreateUser_invalid (r : Repo) (req : CreateUserRequest) (now : Nat)
    (h : req.name = [] ∨ req.email = []) :
    CreateUser r CtxErr.ok req now = (r, Except.error GrpcCode.invalidArgument) := by
  have hc := create_invalid r (fromCreateRequest req 0 now)
    (by simpa [fromCreateRequest] using h)
  unfold CreateUser
  dsimp only [checkContext]
  rw [hc]

theorem CreateUser_dup (r : Repo) (req : CreateUserRequest) (now : Nat)
    (hn : req.name ≠ []) (he : req.email ≠ []) (hd : req.email ∈ r.emails) :
    CreateUser r CtxErr.ok req now = (r, Except.error GrpcCode.alreadyExists) := by
  have hc := create_dup r (fromCreateRequest req 0 now)
    (by simpa [fromCreateRequest] using hn)
    (by simpa [fromCreateRequest] using he)
    (by simpa [fromCreateRequest] using (emails_mem r req.email).mp hd)
  unfold CreateUser
  dsimp only [checkContext]
  rw [hc]

theorem CreateUser_ok (r : Repo) (req : CreateUserRequest) (now : Nat)
    (hn : req.name ≠ []) (he : req.email ≠ []) (hd : req.email ∉ r.emails) :
    CreateUser r CtxErr.ok req now =
      ({ users := r.users ++ [fromCreateRequest req r.nextID now],
          nextID := wrap32 (r.nextID + 1) },
        Except.ok (fromCreateRequest req r.nextID now)) := by
  have hc := create_ok r (fromCreateRequest req 0 now)
    (by simpa [fromCreateRequest] using hn)
    (by simpa [fromCreateRequest] using he)
    (by
      intro eu heu
      have hmem := (emails_mem r req.email).not.mp hd
      push_neg at hmem
      simpa [fromCreateRequest] using hmem eu heu)
  unfold CreateUser
  dsimp only [checkContext]
  rw [hc]
  rfl

theorem CreateUser_shape (r : Repo) (req : CreateUserRequest) (now : Nat) :
    (∃ c, CreateUser r CtxErr.ok req now = (r, Except.error c)) ∨
    (req.email ∉ r.emails ∧
      CreateUser r CtxErr.ok req now =
        ({ users := r.users ++ [fromCreateRequest req r.nextID now],
            nextID := wrap32 (r.nextID + 1) },
          Except.ok (fromCreateRequest req r.nextID now))) := by
  by_cases h1 : req.name = [] ∨ req.email = []
  · exact Or.inl ⟨_, CreateUser_invalid r req now h1⟩
  · push_neg at h1
    by_cases h2 : req.email ∈ r.emails
    · exact Or.inl ⟨_, CreateUser_dup r req now h1.1 h1.2 h2⟩
    · exact Or.inr ⟨h2, CreateUser_ok r req now h1.1 h1.2 h2⟩

theorem UpdateUser_nextID (r : Repo) (req : UpdateUserRequest) (now : Nat) :
    (UpdateUser r CtxErr.ok req now).1.nextID = r.nextID := by
  unfold UpdateUser checkContext
  cases hg : Repo.getByID r req.id with
  | error e => rfl
  | ok user =>
    rcases hu : Repo.update r (User.update user req now) with ⟨r2, res⟩
    have h2 : r2.nextID = r.nextID := by
      have := Repo.update_nextID r (User.update user req now)
      rw [hu] at this
      exact this
    cases res <;> simpa [hu] using h2

theorem DeleteUser_nextID (r : Repo) (id : Int) :
    (DeleteUser r CtxErr.ok id).1.nextID = r.nextID := by
  unfold DeleteUser checkContext
  rcases hd : Repo.delete r id with ⟨r2, res⟩
  have h2 : r2.nextID = r.nextID := by
    have := Repo.delete_nextID r id
    rw [hd] at this
    exact this
  cases res <;> simpa [hd] using h2

/-! ### Helper lemmas: the bulk ingest loop -/

theorem createUsers_ids (now : Nat) :
    ∀ (reqs : List CreateUserRequest) (r : Repo),
      ∃ n : Nat, (CreateUsers now r reqs).2.UserIds = wrapRange r.nextID n ∧
        (CreateUsers now r reqs).1.nextID = bumpN r.nextID n := by
  intro reqs
  induction reqs with
  | nil =>
    intro r
    exact ⟨0, by simp [CreateUsers, wrapRange], by simp [CreateUsers, bumpN]⟩
  | cons req rest ih =>
    intro r
    rcases create_shape r (fromCreateRequest req 0 now) with hc | ⟨_, hc⟩ | ⟨_, hc⟩
    · obtain ⟨n, hids, hnext⟩ := ih r
      rcases hrec : CreateUsers now r rest with ⟨r2, resp⟩
      rw [hrec] at hids hnext
      refine ⟨n, ?_, ?_⟩ <;> simp only [CreateUsers, hc, hrec] <;> assumption
    · obtain ⟨n, hids, hnext⟩ := ih r
      rcases hrec : CreateUsers now r rest with ⟨r2, resp⟩
      rw [hrec] at hids hnext
      refine ⟨n, ?_, ?_⟩ <;> simp only [CreateUsers, hc, hrec] <;> assumption
    · obtain ⟨n, hids, hnext⟩ :=
        ih { users := r.users ++ [{ fromCreateRequest req 0 now with id := r.nextID }],
             nextID := wrap32 (r.nextID + 1) }
      rcases hrec : CreateUsers now
          { users := r.users ++ [{ fromCreateRequest req 0 now with id := r.nextID }],
            nextID := wrap32 (r.nextID + 1) } rest with ⟨r2, resp⟩
      rw [hrec] at hids hnext
      dsimp only at hids hnext
      refine ⟨n + 1, ?_, ?_⟩
      · simp only [CreateUsers, hc, hrec]
        simp only [wrapRange]
        rw [← hids]
      · simp only [CreateUsers, hc, hrec]
        simp only [bumpN]
        exact hnext

theorem nodup_append_one {α : Type} (l : List α) (a : α)
    (h : l.Nodup) (ha : a ∉ l) : (l ++ [a]).Nodup := by
  rw [List.nodup_append]
  exact ⟨h, List.nodup_singleton a,
    fun x hx hxa => ha ((List.mem_singleton.mp hxa) ▸ hx)⟩

theorem create_emails_nodup (r : Repo) (u : User) (h : r.emails.Nodup) :
    (Repo.create r u).1.emails.Nodup := by
  rcases create_shape r u with hc | ⟨_, hc⟩ | ⟨hne, hc⟩
  · rw [hc]; exact h
  · rw [hc]; exact h
  · have hmem : u.email ∉ r.emails := by
      rw [emails_mem]
      push_neg
      intro eu heu
      exact hne eu heu
    have hgoal : (Repo.create r u).1.emails = r.emails ++ [u.email] := by
      rw [hc]
      simp [Repo.emails]
    rw [hgoal]
    exact nodup_append_one _ _ h hmem

theorem CreateUser_emails_nodup (r : Repo) (req : CreateUserRequest) (now : Nat)
    (h : r.emails.Nodup) : (CreateUser r CtxErr.ok req now).1.emails.Nodup := by
  rcases CreateUser_shape r req now with ⟨c, hc⟩ | ⟨hfresh, hc⟩
  · rw [hc]; exact h
  · have hgoal : (CreateUser r CtxErr.ok req now).1.emails = r.emails ++ [req.email] := by
      rw [hc]
      simp [Repo.emails, fromCreateRequest]
    rw [hgoal]
    exact nodup_append_one _ _ h hfresh

theorem delete_emails_nodup (r : Repo) (id : Int) (h : r.emails.Nodup) :
    (Repo.delete r id).1.emails.Nodup := by
  unfold Repo.delete
  split_ifs with hif
  · have hsub : (({ r with users := r.users.filter (fun u => decide (u.id ≠ id)) } : Repo).emails).Sublist r.emails := by
      simp only [Repo.emails]
      exact List.Sublist.map _ (List.filter_sublist _)
    exact List.Nodup.sublist hsub h
  · exact h

theorem DeleteUser_repo (r : Repo) (id : Int) :
    (DeleteUser r CtxErr.ok id).1 = (Repo.delete r id).1 := by
  unfold DeleteUser
  dsimp only [checkContext]
  rcases hd : Repo.delete r id with ⟨r2, res⟩
  cases res <;> simp [hd]

theorem createUsers_emails_nodup (now : Nat) :
    ∀ (reqs : List CreateUserRequest) (r : Repo), r.emails.Nodup →
      (CreateUsers now r reqs).1.emails.Nodup := by
  intro reqs
  induction reqs with
  | nil =>
    intro r h
    simpa [CreateUsers] using h
  | cons q rest ih =>
    intro r h
    rcases hcr : Repo.create r (fromCreateRequest q 0 now) with ⟨r1, res⟩
    have h1 : r1.emails.Nodup := by
      have hh := create_emails_nodup r (fromCreateRequest q 0 now) h
      rw [hcr] at hh
      exact hh
    have h2 := ih r1 h1
    rcases hrec : CreateUsers now r1 rest with ⟨r2, resp⟩
    rw [hrec] at h2
    cases res <;> simp only [CreateUsers, hcr, hrec] <;> exact h2

theorem applyOp_emails_nodup (r : Repo) (op : Op) (hop : op.isUpdate = false)
    (h : r.emails.Nodup) : (applyOp r op).1.emails.Nodup := by
  cases op with
  | createOp req now =>
    have hh := CreateUser_emails_nodup r req now h
    rcases hcu : CreateUser r CtxErr.ok req now with ⟨r2, res⟩
    rw [hcu] at hh
    cases res <;> simp only [applyOp, hcu] <;> exact hh
  | updateOp req now => simp [Op.isUpdate] at hop
  | deleteOp id =>
    have hh := delete_emails_nodup r id h
    simp only [applyOp, DeleteUser_repo]
    exact hh
  | bulkOp reqs now =>
    have hh := createUsers_emails_nodup now reqs r h
    rcases hcu : CreateUsers now r reqs with ⟨r2, resp⟩
    rw [hcu] at hh
    simp only [applyOp, hcu]
    exact hh

theorem runTrace_emails_nodup :
    ∀ (ops : List Op) (r : Repo), (∀ op ∈ ops, op.isUpdate = false) →
      r.emails.Nodup → (runTrace r ops).1.emails.Nodup := by
  intro ops
  induction ops with
  | nil =>
    intro r _ h
    simpa [runTrace] using h
  | cons op rest ih =>
    intro r hops h
    have h1 := applyOp_emails_nodup r op (hops op (List.mem_cons_self op rest)) h
    rcases hap : applyOp r op with ⟨r1, ids1⟩
    rw [hap] at h1
    have h2 := ih r1 (fun o ho => hops o (List.mem_cons_of_mem op ho)) h1
    rcases hrun : runTrace r1 rest with ⟨r2, ids2⟩
    rw [hrun] at h2
    simp only [runTrace, hap, hrun]
    exact h2

/-! ### Helper lemmas: assigned identifiers along a history -/

theorem applyOp_ids (r : Repo) (op : Op) :
    ∃ n : Nat, (applyOp r op).2 = wrapRange r.nextID n ∧
      (applyOp r op).1.nextID = bumpN r.nextID n := by
  cases op with
  | createOp req now =>
    rcases CreateUser_shape r req now with ⟨c, hc⟩ | ⟨_, hc⟩
    · exact ⟨0, by simp [applyOp, hc, wrapRange], by simp [applyOp, hc, bumpN]⟩
    · refine ⟨1, ?_, ?_⟩
      · simp [applyOp, hc, wrapRange, fromCreateRequest]
      · simp [applyOp, hc, bumpN]
  | updateOp req now =>
    exact ⟨0, by simp [applyOp, wrapRange], by simp [applyOp, UpdateUser_nextID, bumpN]⟩
  | deleteOp id =>
    exact ⟨0, by simp [applyOp, wrapRange],
      by simp [applyOp, DeleteUser_repo, Repo.delete_nextID, bumpN]⟩
  | bulkOp reqs now =>
    obtain ⟨n, h1, h2⟩ := createUsers_ids now reqs r
    rcases hcu : CreateUsers now r reqs with ⟨r2, resp⟩
    rw [hcu] at h1 h2
    exact ⟨n, by simp only [applyOp, hcu]; exact h1, by simp only [applyOp, hcu]; exact h2⟩

theorem runTrace_ids :
    ∀ (ops : List Op) (r : Repo),
      ∃ n : Nat, (runTrace r ops).2 = wrapRange r.nextID n ∧
        (runTrace r ops).1.nextID = bumpN r.nextID n := by
  intro ops
  induction ops with
  | nil =>
    intro r
    exact ⟨0, by simp [runTrace, wrapRange], by simp [runTrace, bumpN]⟩
  | cons op rest ih =>
    intro r
    obtain ⟨a, ha1, ha2⟩ := applyOp_ids r op
    rcases hap : applyOp r op with ⟨r1, ids1⟩
    rw [hap] at ha1 ha2
    dsimp only at ha1 ha2
    obtain ⟨b, hb1, hb2⟩ := ih r1
    rcases hrun : runTrace r1 rest with ⟨r2, ids2⟩
    rw [hrun] at hb1 hb2
    dsimp only at hb1 hb2
    refine ⟨a + b, ?_, ?_⟩
    · simp only [runTrace, hap, hrun]
      rw [wrapRange_append b a r.nextID, ha1, hb1, ha2]
    · simp only [runTrace, hap, hrun]
      rw [hb2, ha2, bumpN_add b a r.nextID]

/-! ### Claim theorems -/

/-- C2 (counterexample): the claim includes N = 0, but `List` treats a zero
limit as unbounded: on the seeded store an all-pass filter with limit 0
returns three records, not at most zero. -/
theorem c2_counterexample :
    ¬ ((Repo.list (newInMemoryUserRepository 0)
        { keyword := [], roles := [], limit := 0 }).length ≤ 0) := by
  decide

/-- C2 (amended): for every store contents and every filter with a positive
limit N, `List` returns at most N records; a zero (or negative) limit means
unbounded. -/
theorem c2_amended (r : Repo) (f : UserFilter) (h : 0 < f.limit) :
    ((Repo.list r f).length : Int) ≤ f.limit := by
  unfold Repo.list
  rw [listLoop_eq f r.users 0, if_pos h]
  have h1 := List.length_take_le (f.limit.toNat - 0)
    (r.users.filter (fun u =>
      (decide (f.keyword = []) || decide (f.keyword <:+: u.name)) &&
      (decide (f.roles = []) || decide (u.role ∈ f.roles))))
  have h2 : ((List.take (f.limit.toNat - 0)
      (r.users.filter (fun u =>
        (decide (f.keyword = []) || decide (f.keyword <:+: u.name)) &&
        (decide (f.roles = []) || decide (u.role ∈ f.roles))))).length : Int) ≤
      ((f.limit.toNat - 0 : Nat) : Int) := by
    exact_mod_cast h1
  omega

/-- C2 (witness): the amended bound applied to the seeded store with limit 1. -/
theorem c2_witness :
    0 < (({ keyword := [], roles := [], limit := 1 } : UserFilter)).limit ∧
    ((Repo.list (newInMemoryUserRepository 0)
        { keyword := [], roles := [], limit := 1 }).length : Int) ≤ 1 :=
  ⟨by decide, c2_amended (newInMemoryUserRepository 0)
    { keyword := [], roles := [], limit := 1 } (by decide)⟩

/-- C3 (counterexample): the echo reply's sender is the fixed label
`"Server"`, not the inbound message's recipient: for an inbound message
addressed to `"Bob"`, the reply's sender differs from that recipient. -/
theorem c3_counterexample :
    (chatEcho { From := "Alice".data, To := "Bob".data, Message := "hi".data,
                Timestamp := 0, Kind := MessageType.text } 1).From ≠
      ({ From := "Alice".data, To := "Bob".data, Message := "hi".data,
         Timestamp := 0, Kind := MessageType.text } : ChatMessage).To := by
  decide

/-- C3 (amended): for every inbound chat message, the synthesized echo reply's
recipient is the inbound sender, its sender is the fixed label `"Server"`
(which coincides with the inbound recipient only when the client addressed
the server), its body contains the inbound body prefixed by the `"Echo: "`
marker, and it carries the fresh timestamp. -/
theorem c3_amended (msg : ChatMessage) (now : Nat) :
    (chatEcho msg now).To = msg.From ∧
    (chatEcho msg now).From = "Server".data ∧
    (chatEcho msg now).Message = "Echo: ".data ++ msg.Message ∧
    msg.Message <:+: (chatEcho msg now).Message ∧
    (chatEcho msg now).Timestamp = now :=
  ⟨rfl, rfl, rfl, ⟨"Echo: ".data, [], by simp [chatEcho]⟩, rfl⟩

/-- C4: `List` keeps exactly the users whose name contains the keyword as a
case-sensitive substring (empty keyword keeps all) and whose role is in the
role set (empty set keeps all), truncated to `limit` matches in iteration
order when positive; and the hand-rolled `contains` test agrees with
reference substring containment for every non-empty pattern. -/
theorem c4_theorem :
    (∀ (r : Repo) (f : UserFilter), Repo.list r f = specList r.users f) ∧
    (∀ s p : List Char, p ≠ [] → (contains s p = true ↔ p <:+: s)) := by
  constructor
  · intro r f
    unfold Repo.list specList
    rw [listLoop_eq f r.users 0]
    simp
  · intro s p _
    exact contains_iff s p

/-- C4 (witness): the containment equivalence applied to a seeded name and a
keyword occurring strictly inside it. -/
theorem c4_witness :
    ("ohn".data ≠ ([] : List Char)) ∧ "ohn".data <:+: "Bob Johnson".data :=
  ⟨by decide, (c4_theorem.2 "Bob Johnson".data "ohn".data (by decide)).mp (by decide)⟩

theorem mkEmail_inj : Function.Injective mkEmail := by
  intro a b h
  have h2 : a + 1 = b + 1 := by
    simpa [mkEmail] using congrArg List.length h
  omega

theorem mkEmail_notin_seed (i : Nat) (now0 : Nat) :
    mkEmail i ∉ (newInMemoryUserRepository now0).emails := by
  intro hmem
  have hhead : (mkEmail i).head? = some 'z' := by
    rw [mkEmail, List.replicate_succ]
    rfl
  simp only [newInMemoryUserRepository, Repo.emails, List.map_cons, List.map_nil,
    List.mem_cons, List.not_mem_nil, or_false] at hmem
  rcases hmem with h | h | h <;> rw [h] at hhead <;> exact absurd hhead (by decide)

theorem createTrace_ok :
    ∀ (idxs : List Nat) (r : Repo),
      (∀ i ∈ idxs, mkEmail i ∉ r.emails) →
      (idxs.map mkEmail).Nodup →
      (runTrace r (idxs.map mkOp)).2 = wrapRange r.nextID idxs.length ∧
      (runTrace r (idxs.map mkOp)).1.nextID = bumpN r.nextID idxs.length ∧
      (runTrace r (idxs.map mkOp)).1.emails = r.emails ++ idxs.map mkEmail := by
  intro idxs
  induction idxs with
  | nil =>
    intro r _ _
    refine ⟨?_, ?_, ?_⟩ <;> simp [runTrace, wrapRange, bumpN]
  | cons i rest ih =>
    intro r hfresh hnodup
    have hc := CreateUser_ok r (mkReq i) 0
      (by show "u".data ≠ []; decide)
      (by simp [mkReq, mkEmail, List.replicate_succ])
      (by simpa [mkReq] using hfresh i (List.mem_cons_self i rest))
    set r1 : Repo :=
      { users := r.users ++ [fromCreateRequest (mkReq i) r.nextID 0],
        nextID := wrap32 (r.nextID + 1) } with hr1
    have hr1emails : r1.emails = r.emails ++ [mkEmail i] := by
      simp [hr1, Repo.emails, fromCreateRequest, mkReq]
    rw [List.map_cons] at hnodup
    have hhead : mkEmail i ∉ rest.map mkEmail := (List.nodup_cons.mp hnodup).1
    have hnodup2 : (rest.map mkEmail).Nodup := (List.nodup_cons.mp hnodup).2
    have hfresh2 : ∀ j ∈ rest, mkEmail j ∉ r1.emails := by
      intro j hj
      rw [hr1emails]
      intro hmem
      rcases List.mem_append.mp hmem with hm | hm
      · exact hfresh j (List.mem_cons_of_mem i hj) hm
      · refine hhead ?_
        rw [← List.mem_singleton.mp hm]
        exact List.mem_map_of_mem mkEmail hj
    obtain ⟨hids, hnext, hemails⟩ := ih r1 hfresh2 hnodup2
    have hstep : runTrace r ((i :: rest).map mkOp) =
        ((runTrace r1 (rest.map mkOp)).1,
          r.nextID :: (runTrace r1 (rest.map mkOp)).2) := by
      rcases hrun : runTrace r1 (rest.map mkOp) with ⟨r2, ids⟩
      simp only [List.map_cons, runTrace, mkOp, applyOp, hc, ← hr1, hrun,
        fromCreateRequest, List.singleton_append]
    refine ⟨?_, ?_, ?_⟩
    · rw [hstep]
      simp only [List.length_cons, wrapRange]
      rw [hids]
    · rw [hstep]
      simp only [List.length_cons, bumpN]
      exact hnext
    · rw [hstep]
      rw [hemails, hr1emails]
      simp

/-- C5 (counterexample): a concrete history of 2147483645 valid creations
with pairwise-distinct fresh emails from the seeded store wraps the `int32`
counter, so the assigned id stream is not strictly increasing (its last two
ids are 2147483647 and then -2147483648, which is also where reuse would
begin).  Every operation of the history is a creation, every creation
succeeded (one id per operation), refuting the claim as stated. -/
theorem c5_counterexample :
    (∀ op ∈ bigOps, ∃ i, op = Op.createOp (mkReq i) 0) ∧
    (bigIdxs.map (fun i => (mkReq i).email)).Nodup ∧
    (∀ i ∈ bigIdxs, (mkReq i).email ∉ (newInMemoryUserRepository 0).emails) ∧
    (runTrace (newInMemoryUserRepository 0) bigOps).2.length = bigOps.length ∧
    ¬ List.Chain' (· < ·) (runTrace (newInMemoryUserRepository 0) bigOps).2 := by
  have hfresh : ∀ i ∈ bigIdxs, mkEmail i ∉ (newInMemoryUserRepository 0).emails :=
    fun i _ => mkEmail_notin_seed i 0
  have hnodup : (bigIdxs.map mkEmail).Nodup :=
    List.Nodup.map mkEmail_inj (List.nodup_range bigN)
  obtain ⟨hids, -, -⟩ :=
    createTrace_ok bigIdxs (newInMemoryUserRepository 0) hfresh hnodup
  have h4 : (newInMemoryUserRepository 0).nextID = 4 := rfl
  have hlen : bigIdxs.length = bigN := List.length_range bigN
  rw [h4, hlen] at hids
  refine ⟨?_, ?_, ?_, ?_, ?_⟩
  · intro op hop
    simp only [bigOps, List.mem_map] at hop
    obtain ⟨i, -, rfl⟩ := hop
    exact ⟨i, rfl⟩
  · simpa [mkReq] using hnodup
  · intro i hi
    simpa [mkReq] using mkEmail_notin_seed i 0
  · show (runTrace (newInMemoryUserRepository 0) (bigIdxs.map mkOp)).2.length =
      (bigIdxs.map mkOp).length
    rw [hids, wrapRange_length, List.length_map, hlen]
  · show ¬ List.Chain' (· < ·)
      (runTrace (newInMemoryUserRepository 0) (bigIdxs.map mkOp)).2
    rw [hids]
    intro hch
    have hsplit : wrapRange 4 bigN =
        wrapRange 4 2147483643 ++ wrapRange (bumpN 4 2147483643) 2 := by
      rw [show bigN = 2147483643 + 2 by norm_num [bigN]]
      exact wrapRange_append 2 2147483643 4
    have hbump : bumpN 4 2147483643 = 2147483647 := by
      rw [bumpN_no_wrap 2147483643 4 (by norm_num) (by norm_num)]
      norm_num
    have htail : wrapRange (2147483647 : Int) 2 = [2147483647, -2147483648] := by
      decide
    rw [hsplit, hbump, htail] at hch
    have hlast := (List.chain'_append.mp hch).2.1
    rw [List.chain'_cons] at hlast
    exact absurd hlast.1 (by decide)

/-- C5 (amended): starting from the seeded store (next ID 4), every history
of service operations — creations, deletions, updates, bulk batches in any
interleaving — that assigns fewer than 2^31 - 3 identifiers (so the `int32`
counter never wraps) assigns strictly increasing identifiers, all at least
4; an identifier is never assigned twice, even after deletions. -/
theorem c5_theorem (ops : List Op) (now0 : Nat)
    (h : (runTrace (newInMemoryUserRepository now0) ops).2.length + 4 ≤ 2147483648) :
    List.Chain' (· < ·) (runTrace (newInMemoryUserRepository now0) ops).2 ∧
    ∀ i ∈ (runTrace (newInMemoryUserRepository now0) ops).2, 4 ≤ i := by
  obtain ⟨n, hids, -⟩ := runTrace_ids ops (newInMemoryUserRepository now0)
  have h4 : (newInMemoryUserRepository now0).nextID = 4 := rfl
  rw [h4] at hids
  rw [hids] at h ⊢
  rw [wrapRange_length] at h
  rw [wrapRange_eq_intRange n 4 (by norm_num) (by omega)]
  exact ⟨intRange_chain n 4, fun i hi => intRange_lb n 4 i hi⟩

/-- C5 (witness): a concrete history — create, delete the seeded user 2,
create again — stays far below the wrap and yields the strictly increasing
id stream starting at 4. -/
theorem c5_witness :
    ((runTrace (newInMemoryUserRepository 0)
        [Op.createOp { name := "A".data, email := "a@example.com".data, role := [] } 1,
         Op.deleteOp 2,
         Op.createOp { name := "B".data, email := "b@example.com".data, role := [] } 2]).2.length +
        4 ≤ 2147483648) ∧
    List.Chain' (· < ·)
      (runTrace (newInMemoryUserRepository 0)
        [Op.createOp { name := "A".data, email := "a@example.com".data, role := [] } 1,
         Op.deleteOp 2,
         Op.createOp { name := "B".data, email := "b@example.com".data, role := [] } 2]).2 ∧
    (4 : Int) ≤ 4 :=
  ⟨by decide,
   (c5_theorem
      [Op.createOp { name := "A".data, email := "a@example.com".data, role := [] } 1,
       Op.deleteOp 2,
       Op.createOp { name := "B".data, email := "b@example.com".data, role := [] } 2] 0
      (by decide)).1,
   (c5_theorem
      [Op.createOp { name := "A".data, email := "a@example.com".data, role := [] } 1,
       Op.deleteOp 2,
       Op.createOp { name := "B".data, email := "b@example.com".data, role := [] } 2] 0
      (by decide)).2 4 (by decide)⟩

/-- C7: `UpdateUser` on an id with no live record fails with `NotFound` and
returns the store — users and id counter — exactly unchanged. -/
theorem c7_theorem (r : Repo) (req : UpdateUserRequest) (now : Nat)
    (h : ∀ u ∈ r.users, u.id ≠ req.id) :
    UpdateUser r CtxErr.ok req now = (r, Except.error GrpcCode.notFound) := by
  unfold UpdateUser
  dsimp only [checkContext]
  rw [getByID_none r req.id h]
  simp

/-- C7 (witness): updating the absent id 99 on the seeded store fails with
`NotFound` and leaves the store untouched. -/
theorem c7_witness :
    (∀ u ∈ (newInMemoryUserRepository 0).users, u.id ≠ (99 : Int)) ∧
    UpdateUser (newInMemoryUserRepository 0) CtxErr.ok
        { id := 99, name := "X".data, email := [], role := [] } 5 =
      (newInMemoryUserRepository 0, Except.error GrpcCode.notFound) :=
  ⟨by decide, c7_theorem (newInMemoryUserRepository 0)
    { id := 99, name := "X".data, email := [], role := [] } 5 (by decide)⟩

/-- C10 (counterexample): the "consecutive integers" part fails when a bulk
batch crosses the `int32` wrap: from a store whose counter sits at
2147483647, two successful creations get the ids 2147483647 and
-2147483648, which are not consecutive integers. -/
theorem c10_counterexample :
    ¬ ((CreateUsers 0 { users := [], nextID := 2147483647 }
        [{ name := "A".data, email := "a@x.io".data, role := [] },
         { name := "B".data, email := "b@x.io".data, role := [] }]).2.UserIds =
      intRange ({ users := [], nextID := 2147483647 } : Repo).nextID
        ((CreateUsers 0 { users := [], nextID := 2147483647 }
          [{ name := "A".data, email := "a@x.io".data, role := [] },
           { name := "B".data, email := "b@x.io".data, role := [] }]).2.UserIds.length)) := by
  decide

/-- C10 (amended): whenever `Create` fails the store and the next-id counter
are unchanged; the ids assigned to the successes of a bulk batch follow the
wrapping `int32` successor sequence of the counter, and in particular are
consecutive integers whenever the counter does not wrap during the batch. -/
theorem c10_theorem :
    (∀ (r : Repo) (u : User) (e : RepoError),
        (Repo.create r u).2 = Except.error e → (Repo.create r u).1 = r) ∧
    (∀ (now : Nat) (r : Repo) (reqs : List CreateUserRequest),
        (CreateUsers now r reqs).2.UserIds =
          wrapRange r.nextID (CreateUsers now r reqs).2.UserIds.length) ∧
    (∀ (now : Nat) (r : Repo) (reqs : List CreateUserRequest),
        -2147483648 ≤ r.nextID →
        r.nextID + ((CreateUsers now r reqs).2.UserIds.length : Int) ≤ 2147483648 →
        (CreateUsers now r reqs).2.UserIds =
          intRange r.nextID (CreateUsers now r reqs).2.UserIds.length) := by
  refine ⟨create_error_frame, ?_, ?_⟩
  · intro now r reqs
    obtain ⟨n, hids, -⟩ := createUsers_ids now reqs r
    rw [hids, wrapRange_length]
  · intro now r reqs hlo hhi
    obtain ⟨n, hids, -⟩ := createUsers_ids now reqs r
    rw [hids] at hhi ⊢
    rw [wrapRange_length] at hhi ⊢
    exact wrapRange_eq_intRange n r.nextID hlo hhi

/-- C10 (witness): a create with an empty name fails and leaves the seeded
store intact, and a one-item batch from the seeded counter, far below the
wrap, gets the consecutive id range. -/
theorem c10_witness :
    (Repo.create (newInMemoryUserRepository 0)
        { id := 0, name := [], email := "x@example.com".data, role := [],
          createdAt := 0, updatedAt := 0 }).2 =
      Except.error RepoError.invalidInput ∧
    (Repo.create (newInMemoryUserRepository 0)
        { id := 0, name := [], email := "x@example.com".data, role := [],
          createdAt := 0, updatedAt := 0 }).1 =
      newInMemoryUserRepository 0 ∧
    -2147483648 ≤ (newInMemoryUserRepository 0).nextID ∧
    (newInMemoryUserRepository 0).nextID +
        (((CreateUsers 0 (newInMemoryUserRepository 0)
          [{ name := "A".data, email := "a@x.io".data, role := [] }]).2.UserIds.length : Nat) : Int) ≤
      2147483648 ∧
    (CreateUsers 0 (newInMemoryUserRepository 0)
        [{ name := "A".data, email := "a@x.io".data, role := [] }]).2.UserIds =
      intRange (newInMemoryUserRepository 0).nextID
        ((CreateUsers 0 (newInMemoryUserRepository 0)
          [{ name := "A".data, email := "a@x.io".data, role := [] }]).2.UserIds.length) :=
  ⟨rfl,
   c10_theorem.1 (newInMemoryUserRepository 0)
     { id := 0, name := [], email := "x@example.com".data, role := [],
       createdAt := 0, updatedAt := 0 } RepoError.invalidInput rfl,
   by decide, by decide,
   c10_theorem.2.2 0 (newInMemoryUserRepository 0)
     [{ name := "A".data, email := "a@x.io".data, role := [] }]
     (by decide) (by decide)⟩

theorem seed_emails_nodup (now0 : Nat) :
    (newInMemoryUserRepository now0).emails.Nodup := by
  have h : (newInMemoryUserRepository now0).emails =
      (newInMemoryUserRepository 0).emails := rfl
  rw [h]
  decide

/-- C1 (counterexample): email uniqueness is not an invariant under `Update`:
updating seeded user 2's email to seeded user 1's email leaves two distinct
live users with the same email, because the update path never re-checks
email uniqueness. -/
theorem c1_counterexample :
    ∃ u1 ∈ (UpdateUser (newInMemoryUserRepository 0) CtxErr.ok
        { id := 2, name := [], email := "john@example.com".data, role := [] } 1).1.users,
      ∃ u2 ∈ (UpdateUser (newInMemoryUserRepository 0) CtxErr.ok
          { id := 2, name := [], email := "john@example.com".data, role := [] } 1).1.users,
        u1.id ≠ u2.id ∧ u1.email = u2.email := by
  decide

/-- C1 (amended): email uniqueness is an invariant of the store under every
history of `Create`, `Delete` and bulk-ingest operations starting from the
seeded store; `Update` is excluded because it can overwrite an email with a
duplicate. -/
theorem c1_amended (ops : List Op) (now0 : Nat)
    (h : ∀ op ∈ ops, op.isUpdate = false) :
    ((runTrace (newInMemoryUserRepository now0) ops).1.emails).Nodup :=
  runTrace_emails_nodup ops (newInMemoryUserRepository now0) h (seed_emails_nodup now0)

/-- C1 (witness): a delete followed by a fresh create keeps the seeded
store's emails pairwise distinct. -/
theorem c1_witness :
    (∀ op ∈ ([Op.deleteOp 1,
        Op.createOp { name := "Test".data, email := "test@example.com".data,
                      role := [] } 1] : List Op), op.isUpdate = false) ∧
    ((runTrace (newInMemoryUserRepository 0)
        [Op.deleteOp 1,
         Op.createOp { name := "Test".data, email := "test@example.com".data,
                       role := [] } 1]).1.emails).Nodup :=
  ⟨by decide,
   c1_amended
     [Op.deleteOp 1,
      Op.createOp { name := "Test".data, email := "test@example.com".data,
                    role := [] } 1] 0 (by decide)⟩

/-- C6: `CreateUser` with an empty name or email fails with `InvalidArgument`
(the repository's `InvalidInput`, before the duplicate scan); with non-empty
fields and an email already held by a live user it fails with
`AlreadyExists` (the repository's `EmailExists`) regardless of name and
role; otherwise it assigns the next sequential id and stores the record. -/
theorem c6_theorem (r : Repo) (req : CreateUserRequest) (now : Nat) :
    ((req.name = [] ∨ req.email = []) →
      CreateUser r CtxErr.ok req now = (r, Except.error GrpcCode.invalidArgument)) ∧
    (req.name ≠ [] → req.email ≠ [] → req.email ∈ r.emails →
      CreateUser r CtxErr.ok req now = (r, Except.error GrpcCode.alreadyExists)) ∧
    (req.name ≠ [] → req.email ≠ [] → req.email ∉ r.emails →
      CreateUser r CtxErr.ok req now =
        ({ users := r.users ++ [fromCreateRequest req r.nextID now],
            nextID := wrap32 (r.nextID + 1) },
          Except.ok (fromCreateRequest req r.nextID now))) :=
  ⟨fun h => CreateUser_invalid r req now h,
   fun hn he hd => CreateUser_dup r req now hn he hd,
   fun hn he hd => CreateUser_ok r req now hn he hd⟩

/-- C6 (witness): on the seeded store — an empty name is rejected as invalid
even though its email is fresh; a fresh name with seeded user 1's email is
rejected as already existing; a fresh name and email are stored under id 4. -/
theorem c6_witness :
    CreateUser (newInMemoryUserRepository 0) CtxErr.ok
        { name := [], email := "x@example.com".data, role := [] } 1 =
      (newInMemoryUserRepository 0, Except.error GrpcCode.invalidArgument) ∧
    CreateUser (newInMemoryUserRepository 0) CtxErr.ok
        { name := "Test".data, email := "john@example.com".data, role := [] } 1 =
      (newInMemoryUserRepository 0, Except.error GrpcCode.alreadyExists) ∧
    CreateUser (newInMemoryUserRepository 0) CtxErr.ok
        { name := "Test".data, email := "test@example.com".data, role := [] } 1 =
      ({ users := (newInMemoryUserRepository 0).users ++
            [fromCreateRequest
              { name := "Test".data, email := "test@example.com".data, role := [] }
              (newInMemoryUserRepository 0).nextID 1],
          nextID := wrap32 ((newInMemoryUserRepository 0).nextID + 1) },
        Except.ok (fromCreateRequest
          { name := "Test".data, email := "test@example.com".data, role := [] }
          (newInMemoryUserRepository 0).nextID 1)) :=
  ⟨(c6_theorem (newInMemoryUserRepository 0)
      { name := [], email := "x@example.com".data, role := [] } 1).1 (Or.inl rfl),
   (c6_theorem (newInMemoryUserRepository 0)
      { name := "Test".data, email := "john@example.com".data, role := [] } 1).2.1
     (by decide) (by decide) (by decide),
   (c6_theorem (newInMemoryUserRepository 0)
      { name := "Test".data, email := "test@example.com".data, role := [] } 1).2.2
     (by decide) (by decide) (by decide)⟩

/-- C8: updating an existing user with a request that sets only the role
(name and email empty) returns a record with the name, email, id and
creation timestamp unchanged, the role set to the requested value and the
update timestamp advanced to the current time, and that record is stored. -/
theorem c8_theorem (r : Repo) (req : UpdateUserRequest) (now : Nat) (u : User)
    (hget : Repo.getByID r req.id = Except.ok u)
    (hname : req.name = []) (hemail : req.email = []) (hrole : req.role ≠ [])
    (htime : u.updatedAt < now) :
    ∃ u', (UpdateUser r CtxErr.ok req now).2 = Except.ok u' ∧
      u'.name = u.name ∧ u'.email = u.email ∧ u'.id = u.id ∧
      u'.createdAt = u.createdAt ∧ u'.role = req.role ∧
      u.updatedAt < u'.updatedAt ∧
      u' ∈ (UpdateUser r CtxErr.ok req now).1.users := by
  obtain ⟨hmem, hid⟩ := getByID_ok r req.id u hget
  have hupd : User.update u req now =
      { u with role := req.role, updatedAt := now } := by
    simp [User.update, hname, hemail, hrole]
  have hidu : (User.update u req now).id = u.id := by rw [hupd]
  have hex : ∃ eu ∈ r.users, eu.id = (User.update u req now).id :=
    ⟨u, hmem, by rw [hidu]⟩
  have hrepo : Repo.update r (User.update u req now) =
      ({ r with users := r.users.map (fun eu =>
          if eu.id = (User.update u req now).id then User.update u req now else eu) },
        Except.ok ()) := by
    unfold Repo.update
    rw [if_pos hex]
  have hrun : UpdateUser r CtxErr.ok req now =
      ({ r with users := r.users.map (fun eu =>
          if eu.id = (User.update u req now).id then User.update u req now else eu) },
        Except.ok (User.update u req now)) := by
    unfold UpdateUser
    dsimp only [checkContext]
    rw [hget]
    dsimp only
    rw [hrepo]
  refine ⟨User.update u req now, ?_, ?_, ?_, ?_, ?_, ?_, ?_, ?_⟩
  · rw [hrun]
  · rw [hupd]
  · rw [hupd]
  · rw [hupd]
  · rw [hupd]
  · rw [hupd]
  · rw [hupd]
    exact htime
  · rw [hrun]
    refine List.mem_map.mpr ⟨u, hmem, ?_⟩
    rw [if_pos (by rw [hidu])]

/-- C8 (witness): setting only the role of seeded user 2 to `"admin"` at
time 5 keeps the name, email, id and creation time, sets the role and
advances the update time. -/
theorem c8_witness :
    ∃ u', (UpdateUser (newInMemoryUserRepository 0) CtxErr.ok
        { id := 2, name := [], email := [], role := "admin".data } 5).2 =
          Except.ok u' ∧
      u'.name = "Jane Smith".data ∧ u'.email = "jane@example.com".data ∧
      u'.id = 2 ∧ u'.createdAt = 0 ∧ u'.role = "admin".data ∧
      0 < u'.updatedAt ∧
      u' ∈ (UpdateUser (newInMemoryUserRepository 0) CtxErr.ok
        { id := 2, name := [], email := [], role := "admin".data } 5).1.users :=
  c8_theorem (newInMemoryUserRepository 0)
    { id := 2, name := [], email := [], role := "admin".data } 5
    { id := 2, name := "Jane Smith".data, email := "jane@example.com".data,
      role := "user".data, createdAt := 0, updatedAt := 0 }
    rfl rfl rfl (by decide) (by decide)

end GrpDemo
